import Mathlib

/-!
Shallow embedding of the transport-sentiment backend (`src/backend/api.py`):
the text classifier (`determine_transport_type`), the sentiment scorer
(`determine_sentiment_score`), the region parser (`extract_state_from_region`),
the tweet enricher (the `/api/tweets` loop) and the state aggregator
(the `/api/states` handler), together with theorems about their behaviour.

Strings are manipulated through their character lists; Python's `str.lower`,
`str.strip`, `str.split` and the `in` substring test are modelled by the
corresponding list functions below.  Python float division on integer counts
is modelled by exact division in `ℚ`.
-/

namespace TransportSentiment

/-- Python `str.lower`, applied character by character (ASCII case folding,
which is what the keyword matching relies on). -/
def pyLower (s : String) : String :=
  String.mk (s.data.map Char.toLower)

/-- Python `needle in hay` for strings: `needle` occurs as a contiguous
substring of `hay`. -/
def isSubstring : List Char → List Char → Bool
  | needle, [] => needle.isEmpty
  | needle, c :: rest => needle.isPrefixOf (c :: rest) || isSubstring needle rest

/-- Python `s.strip()`: drop leading and trailing whitespace. -/
def trimChars (cs : List Char) : List Char :=
  ((cs.dropWhile Char.isWhitespace).reverse.dropWhile Char.isWhitespace).reverse

/-- Python `s.split(sep)` for a one-character separator: split at every
occurrence of `sep`, keeping empty pieces, never returning an empty list. -/
def splitChars (sep : Char) : List Char → List (List Char)
  | [] => [[]]
  | c :: rest =>
    if c = sep then
      [] :: splitChars sep rest
    else
      match splitChars sep rest with
      | [] => [[c]]
      | p :: ps => (c :: p) :: ps

/-- Character test used for Python `s.split(',', 1)`: does the scan continue
past this character. -/
def notComma (c : Char) : Bool :=
  ¬(c = ',')

/-- Keyword test of the classifier: Python `keyword in text`. -/
def hasKeyword (text : List Char) (kw : String) : Bool :=
  isSubstring kw.data text

/-- `determine_transport_type` from `api.py`: lower-case the text, then test
the keyword groups in order metro, train, auto, taxi; first match wins and
"bus" is the fallback.  The non-ASCII keywords are copied verbatim from the
source file. -/
def determine_transport_type (text : String) : String :=
  let t := (pyLower text).data
  if ["metro", "à¤®à¥‡à¤Ÿà¥à¤°à¥‹", "subway", "dmrc"].any (hasKeyword t) then
    "metro"
  else if ["train", "à¤Ÿà¥à¤°à¥‡à¤¨", "railway", "irctc", "local train"].any (hasKeyword t) then
    "train"
  else if ["auto", "à¤‘à¤Ÿà¥‹", "rickshaw", "three wheeler"].any (hasKeyword t) then
    "auto"
  else if ["taxi", "à¤Ÿà¥ˆà¤•à¥à¤¸à¥€", "cab", "ola", "uber"].any (hasKeyword t) then
    "taxi"
  else
    "bus"

/-- `determine_sentiment_score` from `api.py`: dictionary lookup on the
lower-cased label, defaulting to 0 for unknown labels. -/
def determine_sentiment_score (label : String) : ℚ :=
  if pyLower label = "positive" then 1/2
  else if pyLower label = "negative" then -(1/2)
  else if pyLower label = "neutral" then 0
  else 0

/-- `extract_state_from_region` from `api.py`: if the region contains a comma,
the trimmed piece after the last comma (`region.split(',')[-1].strip()`),
otherwise the trimmed region. -/
def extract_state_from_region (region : String) : String :=
  if ',' ∈ region.data then
    String.mk (trimChars ((splitChars ',' region.data).getLastD []))
  else
    String.mk (trimChars region.data)

/-- Timestamp value, identified by its ISO-8601 rendering (Python
`datetime.isoformat`). -/
structure Timestamp where
  iso : String
deriving DecidableEq

/-- Row of the tweet store as the backend reads it (a Python dict accessed
with `row.get`): every field may be absent. -/
structure RawRecord where
  id : Option Int := none
  text : Option String := none
  region : Option String := none
  sentiment : Option String := none
  created_at : Option Timestamp := none
deriving DecidableEq

/-- Row of the precomputed per-state summary (`db.get_state_summary()`):
every field may be absent. -/
structure SummaryRow where
  region : Option String := none
  total_messages : Option Int := none
  positive_count : Option Int := none
  negative_count : Option Int := none
  neutral_count : Option Int := none
deriving DecidableEq

/-- Sentiment block of an enriched tweet. -/
structure TweetSentiment where
  polarity : ℚ
  label : String
  confidence : ℚ
deriving DecidableEq

/-- Enriched tweet as serialized by `/api/tweets`. -/
structure EnrichedTweet where
  id : Option Int
  text : String
  timestamp : String
  location : String
  state : String
  city : String
  transportType : String
  sentiment : TweetSentiment
deriving DecidableEq

/-- Body of the `/api/tweets` loop in `get_tweets`: default the missing
fields (`text` to `""`, `region` to `"India"`, `sentiment` to `"neutral"`,
`created_at` to the current time `now`), classify the transport type, split
the region at the FIRST comma (`region.split(',', 1)`) into city and state,
and attach the scored sentiment with fixed confidence 0.85. -/
def enrichTweet (now : Timestamp) (row : RawRecord) : EnrichedTweet :=
  let text := row.text.getD ""
  let region := row.region.getD "India"
  let sentiment_label := row.sentiment.getD "neutral"
  let created_at := row.created_at.getD now
  let transport_type := determine_transport_type text
  let cs := region.data
  let city :=
    if ',' ∈ cs then String.mk (trimChars (cs.takeWhile notComma))
    else String.mk (trimChars cs)
  let state :=
    if ',' ∈ cs then String.mk (trimChars ((cs.dropWhile notComma).drop 1))
    else String.mk (trimChars cs)
  { id := row.id
    text := text
    timestamp := created_at.iso
    location := region
    state := state
    city := city
    transportType := transport_type
    sentiment :=
      { polarity := determine_sentiment_score sentiment_label
        label := sentiment_label
        confidence := 17/20 } }

/-- The `/api/tweets` handler body: enrich every fetched row in order. -/
def get_tweets (now : Timestamp) (rows : List RawRecord) : List EnrichedTweet :=
  rows.map (enrichTweet now)

/-- Per-transport-type counters of one state bucket (the
`transport_breakdown` dict, keys bus/metro/train/auto/taxi). -/
structure TransportBreakdown where
  bus : Nat
  metro : Nat
  train : Nat
  auto : Nat
  taxi : Nat
deriving DecidableEq

/-- All-zero transport breakdown, the per-state initial value. -/
def TransportBreakdown.zero : TransportBreakdown :=
  ⟨0, 0, 0, 0, 0⟩

/-- Python `state_data[state]['transport_breakdown'][transport] += 1`.
The classifier only ever returns one of the five keys, so the fall-through
branch (a `KeyError` in Python) is unreachable. -/
def TransportBreakdown.bump (tb : TransportBreakdown) (t : String) : TransportBreakdown :=
  if t = "bus" then { tb with bus := tb.bus + 1 }
  else if t = "metro" then { tb with metro := tb.metro + 1 }
  else if t = "train" then { tb with train := tb.train + 1 }
  else if t = "auto" then { tb with auto := tb.auto + 1 }
  else if t = "taxi" then { tb with taxi := tb.taxi + 1 }
  else tb

/-- One per-state accumulator of `get_states_summary` (a value of the
`state_data` defaultdict). -/
structure StateData where
  total_messages : Int
  positive_count : Int
  negative_count : Int
  neutral_count : Int
  transport_breakdown : TransportBreakdown
deriving DecidableEq

/-- The defaultdict initializer of `state_data`. -/
def StateData.init : StateData :=
  ⟨0, 0, 0, 0, TransportBreakdown.zero⟩

/-- The `state_data` defaultdict, modelled as an insertion-ordered
association list (Python dicts iterate in insertion order).  `updateState`
is `state_data[k] = f(state_data[k])`: it modifies the entry in place if the
key is present and appends a fresh entry initialized with `StateData.init`
otherwise. -/
def updateState (m : List (String × StateData)) (k : String)
    (f : StateData → StateData) : List (String × StateData) :=
  match m with
  | [] => [(k, f StateData.init)]
  | (k', v) :: rest =>
    if k' = k then (k', f v) :: rest
    else (k', v) :: updateState rest k f

/-- State key of a record in pass 1 of `get_states_summary`:
`extract_state_from_region(tweet.get('region', 'Unknown'))`. -/
def tweetState (t : RawRecord) : String :=
  extract_state_from_region (t.region.getD "Unknown")

/-- Transport type of a record in pass 1 of `get_states_summary`:
`determine_transport_type(tweet.get('text', ''))`. -/
def tweetTransport (t : RawRecord) : String :=
  determine_transport_type (t.text.getD "")

/-- Pass-1 step of `get_states_summary`: bump the transport counter of the
record's state bucket. -/
def addTweet (m : List (String × StateData)) (t : RawRecord) :
    List (String × StateData) :=
  updateState m (tweetState t) (fun d =>
    { d with transport_breakdown := d.transport_breakdown.bump (tweetTransport t) })

/-- State key of a summary row in pass 2 of `get_states_summary`:
`extract_state_from_region(row.get('region', 'Unknown'))`. -/
def rowState (r : SummaryRow) : String :=
  extract_state_from_region (r.region.getD "Unknown")

/-- Python `row.get('total_messages', 0)`. -/
def rowTotal (r : SummaryRow) : Int :=
  r.total_messages.getD 0

/-- Python `row.get('positive_count', 0)`. -/
def rowPositive (r : SummaryRow) : Int :=
  r.positive_count.getD 0

/-- Python `row.get('negative_count', 0)`. -/
def rowNegative (r : SummaryRow) : Int :=
  r.negative_count.getD 0

/-- Python `row.get('neutral_count', 0)`. -/
def rowNeutral (r : SummaryRow) : Int :=
  r.neutral_count.getD 0

/-- Pass-2 step of `get_states_summary`: add the row's counts (each field
defaulting to 0 when absent) into the row's state bucket. -/
def addRow (m : List (String × StateData)) (r : SummaryRow) :
    List (String × StateData) :=
  updateState m (rowState r) (fun d =>
    { d with
      total_messages := d.total_messages + rowTotal r
      positive_count := d.positive_count + rowPositive r
      negative_count := d.negative_count + rowNegative r
      neutral_count := d.neutral_count + rowNeutral r })

/-- The fully accumulated `state_data` of `get_states_summary`: pass 1 over
all records, then pass 2 over all summary rows. -/
def stateBuckets (tweets : List RawRecord) (rows : List SummaryRow) :
    List (String × StateData) :=
  rows.foldl addRow (tweets.foldl addTweet [])

/-- Sentiment count block of a state report. -/
structure SentimentBreakdown where
  positive : Int
  negative : Int
  neutral : Int
deriving DecidableEq

/-- One element of the `/api/states` response. -/
structure StateReport where
  state : String
  sentimentScore : ℚ
  totalMessages : Int
  transportBreakdown : TransportBreakdown
  sentimentBreakdown : SentimentBreakdown
deriving DecidableEq

/-- Finalization step of `get_states_summary`: emit a report exactly when the
bucket's `total_messages` is positive, with
`sentimentScore = (positive_count - negative_count) / total_messages`
(Python float division, modelled exactly in `ℚ`). -/
def mkStateReport (p : String × StateData) : Option StateReport :=
  if 0 < p.2.total_messages then
    some
      { state := p.1
        sentimentScore :=
          ((p.2.positive_count - p.2.negative_count : ℤ) : ℚ) / ((p.2.total_messages : ℤ) : ℚ)
        totalMessages := p.2.total_messages
        transportBreakdown := p.2.transport_breakdown
        sentimentBreakdown :=
          ⟨p.2.positive_count, p.2.negative_count, p.2.neutral_count⟩ }
  else none

/-- The `/api/states` handler body `get_states_summary`: accumulate the
two-pass `state_data` buckets, then emit the reports in bucket (insertion)
order. -/
def get_states_summary (tweets : List RawRecord) (rows : List SummaryRow) :
    List StateReport :=
  (stateBuckets tweets rows).filterMap mkStateReport

/-- Spec-side description of the classifier (for the refinement part of the
classifier claim): the keyword groups in their fixed priority order. -/
def transportGroups : List (String × List String) :=
  [("metro", ["metro", "à¤®à¥‡à¤Ÿà¥à¤°à¥‹", "subway", "dmrc"]),
   ("train", ["train", "à¤Ÿà¥à¤°à¥‡à¤¨", "railway", "irctc", "local train"]),
   ("auto", ["auto", "à¤‘à¤Ÿà¥‹", "rickshaw", "three wheeler"]),
   ("taxi", ["taxi", "à¤Ÿà¥ˆà¤•à¥à¤¸à¥€", "cab", "ola", "uber"])]

/-- Spec-side first-match scan over ordered keyword groups, defaulting to
"bus" when no group matches. -/
def firstMatchingGroup : List (String × List String) → List Char → String
  | [], _ => "bus"
  | g :: gs, t => if g.2.any (hasKeyword t) then g.1 else firstMatchingGroup gs t

/-- Spec-side classifier: lower-case the text, then take the first keyword
group (in the fixed order of `transportGroups`) with a matching keyword. -/
def classifyTransportSpec (text : String) : String :=
  firstMatchingGroup transportGroups (pyLower text).data

/-- Spec-side output order: the input strings in order of first appearance,
later duplicates dropped. -/
def firstOccur (xs : List String) : List String :=
  xs.foldl (fun acc s => if s ∈ acc then acc else acc ++ [s]) []

/-- Example summary row used by several witnesses (spec §8's end-to-end row). -/
def mumbaiRow : SummaryRow :=
  { region := some "Mumbai, Maharashtra"
    total_messages := some 10
    positive_count := some 6
    negative_count := some 2
    neutral_count := some 2 }

/-- Report that `/api/states` derives from `mumbaiRow` alone. -/
def mumbaiReport : StateReport :=
  { state := "Maharashtra"
    sentimentScore := 2/5
    totalMessages := 10
    transportBreakdown := TransportBreakdown.zero
    sentimentBreakdown := ⟨6, 2, 2⟩ }

/-- Summary row whose state bucket accumulates zero total messages. -/
def zeroTotalRow : SummaryRow :=
  { region := some "Z", total_messages := some 0 }

/-- Summary row with inconsistent counts: more positives than messages. -/
def overcountRow : SummaryRow :=
  { region := some "X", total_messages := some 1, positive_count := some 2 }

/-- Summary rows whose report sequence is sorted neither by state name nor by
sentiment score: the states come out as B, A, C with scores -1, 1, 0. -/
def unsortedRows : List SummaryRow :=
  [{ region := some "B", total_messages := some 1, negative_count := some 1 },
   { region := some "A", total_messages := some 1, positive_count := some 1 },
   { region := some "C", total_messages := some 1 }]

/-- A nonempty list's `getLastD` does not depend on the default. -/
theorem getLastD_of_ne_nil {α : Type} (l : List α) (h : l ≠ []) (d₁ d₂ : α) :
    l.getLastD d₁ = l.getLastD d₂ := by
  cases l with
  | nil => cases h rfl
  | cons a t => rw [List.getLastD_cons, List.getLastD_cons]

/-- Unfolding equation of `splitChars` at a leading separator. -/
theorem splitChars_cons_self (sep : Char) (rest : List Char) :
    splitChars sep (sep :: rest) = [] :: splitChars sep rest := by
  simp [splitChars]

/-- Unfolding equation of `splitChars` at a non-separator character. -/
theorem splitChars_cons_of_ne (sep c : Char) (rest p : List Char) (ps : List (List Char))
    (hc : ¬(c = sep)) (hs : splitChars sep rest = p :: ps) :
    splitChars sep (c :: rest) = (c :: p) :: ps := by
  simp [splitChars, hc, hs]

/-- Python `split` never returns an empty list of pieces. -/
theorem splitChars_ne_nil (sep : Char) (cs : List Char) : splitChars sep cs ≠ [] := by
  cases cs with
  | nil => simp [splitChars]
  | cons c rest =>
    by_cases h : c = sep
    · simp [splitChars, h]
    · simp only [splitChars, if_neg h]
      cases hs : splitChars sep rest <;> simp

/-- Splitting a separator-free list returns the list as its only piece. -/
theorem splitChars_of_not_mem (sep : Char) :
    ∀ cs : List Char, sep ∉ cs → splitChars sep cs = [cs] := by
  intro cs
  induction cs with
  | nil => intro _; rfl
  | cons c rest ih =>
    intro h
    have hc : ¬(c = sep) := fun hEq => h (by simp [hEq])
    have hr : sep ∉ rest := fun hm => h (List.mem_cons_of_mem c hm)
    simp [splitChars, hc, ih hr]

/-- Splitting a list that contains the separator yields at least two pieces. -/
theorem two_le_length_splitChars (sep : Char) :
    ∀ cs : List Char, sep ∈ cs → 2 ≤ (splitChars sep cs).length := by
  intro cs
  induction cs with
  | nil => intro h; cases h
  | cons c rest ih =>
    intro h
    by_cases hc : c = sep
    · subst hc
      rw [splitChars_cons_self]
      cases hs : splitChars c rest with
      | nil => cases (splitChars_ne_nil c rest) hs
      | cons p ps => simp
    · have hr : sep ∈ rest := by
        cases List.mem_cons.mp h with
        | inl h1 => cases hc h1.symm
        | inr h2 => exact h2
      cases hs : splitChars sep rest with
      | nil => cases (splitChars_ne_nil sep rest) hs
      | cons p ps =>
        rw [splitChars_cons_of_ne sep c rest p ps hc hs]
        have h2 := ih hr
        rw [hs] at h2
        simp only [List.length_cons] at h2 ⊢
        omega

/-- The last piece of a split only depends on the part after the last
separator. -/
theorem getLastD_splitChars_append (sep : Char) :
    ∀ (a b d : List Char),
      (splitChars sep (a ++ sep :: b)).getLastD d = (splitChars sep b).getLastD d := by
  intro a
  induction a with
  | nil =>
    intro b d
    rw [List.nil_append, splitChars_cons_self, List.getLastD_cons]
    exact getLastD_of_ne_nil _ (splitChars_ne_nil sep b) [] d
  | cons c a' ih =>
    intro b d
    rw [List.cons_append]
    by_cases hc : c = sep
    · rw [hc, splitChars_cons_self, List.getLastD_cons]
      rw [ih b ([] : List Char)]
      exact getLastD_of_ne_nil _ (splitChars_ne_nil sep b) [] d
    · cases hs : splitChars sep (a' ++ sep :: b) with
      | nil => cases splitChars_ne_nil sep _ hs
      | cons p ps =>
        have hps : ps ≠ [] := by
          have h2 := two_le_length_splitChars sep (a' ++ sep :: b) (by simp)
          rw [hs] at h2
          simp only [List.length_cons] at h2
          intro hnil
          rw [hnil] at h2
          simp at h2
        rw [splitChars_cons_of_ne sep c _ p ps hc hs, List.getLastD_cons]
        have hrec := ih b d
        rw [hs, List.getLastD_cons] at hrec
        calc ps.getLastD (c :: p) = ps.getLastD p := getLastD_of_ne_nil ps hps _ _
          _ = (splitChars sep b).getLastD d := hrec

/-- Last-comma behaviour of the region parser: the state is the trimmed part
after the last comma. -/
theorem extract_state_append (a b : List Char) (hb : ',' ∉ b) :
    extract_state_from_region (String.mk (a ++ ',' :: b)) = String.mk (trimChars b) := by
  have hmem : ',' ∈ a ++ ',' :: b := List.mem_append_right a (List.mem_cons_self ',' b)
  simp only [extract_state_from_region]
  rw [if_pos hmem, getLastD_splitChars_append, splitChars_of_not_mem ',' b hb,
    List.getLastD_cons]
  rfl

/-- Comma-free behaviour of the region parser: the whole trimmed region. -/
theorem extract_state_no_comma (cs : List Char) (h : ',' ∉ cs) :
    extract_state_from_region (String.mk cs) = String.mk (trimChars cs) := by
  simp only [extract_state_from_region]
  rw [if_neg h]

/-- Scanning up to the first comma collects exactly the comma-free part
before it. -/
theorem takeWhile_notComma_append (a b : List Char) (ha : ',' ∉ a) :
    (a ++ ',' :: b).takeWhile notComma = a := by
  induction a with
  | nil => simp [List.takeWhile_cons, notComma]
  | cons c a' ih =>
    have hc : ¬(c = ',') := fun hEq => ha (by simp [hEq])
    have ha' : ',' ∉ a' := fun hm => ha (List.mem_cons_of_mem c hm)
    simp [List.takeWhile_cons, notComma, hc, ih ha']

/-- Dropping up to the first comma leaves the comma and everything after. -/
theorem dropWhile_notComma_append (a b : List Char) (ha : ',' ∉ a) :
    (a ++ ',' :: b).dropWhile notComma = ',' :: b := by
  induction a with
  | nil => simp [List.dropWhile_cons, notComma]
  | cons c a' ih =>
    have hc : ¬(c = ',') := fun hEq => ha (by simp [hEq])
    have ha' : ',' ∉ a' := fun hm => ha (List.mem_cons_of_mem c hm)
    simp [List.dropWhile_cons, notComma, hc, ih ha']

/-- A property preserved by every applied step of a fold holds of the fold's
result. -/
theorem foldl_preserve_mem {α β : Type} (P : β → Prop) (g : β → α → β) :
    ∀ (l : List α) (b : β), (∀ b' a, a ∈ l → P b' → P (g b' a)) → P b → P (l.foldl g b)
  | [], _, _, hb => hb
  | a :: l, b, hg, hb => by
    simp only [List.foldl_cons]
    exact foldl_preserve_mem P g l (g b a)
      (fun b' x hx => hg b' x (List.mem_cons_of_mem a hx))
      (hg b a (List.mem_cons_self a l) hb)

/-- Every value of an updated `state_data` map satisfies a property that the
present values satisfy, that the updater preserves, and that holds of an
updated fresh bucket. -/
theorem updateState_values (Q : StateData → Prop) (f : StateData → StateData)
    (hf : ∀ v, Q v → Q (f v)) (hinit : Q (f StateData.init)) :
    ∀ (m : List (String × StateData)) (k : String), (∀ p ∈ m, Q p.2) →
      ∀ p ∈ updateState m k f, Q p.2 := by
  intro m
  induction m with
  | nil =>
    intro k _ p hp
    simp only [updateState, List.mem_singleton] at hp
    rw [hp]
    exact hinit
  | cons e rest ih =>
    intro k hm p hp
    obtain ⟨k', v⟩ := e
    simp only [updateState] at hp
    by_cases hk : k' = k
    · rw [if_pos hk] at hp
      cases List.mem_cons.mp hp with
      | inl h1 => rw [h1]; exact hf v (hm (k', v) (List.mem_cons_self _ _))
      | inr h2 => exact hm p (List.mem_cons_of_mem _ h2)
    · rw [if_neg hk] at hp
      cases List.mem_cons.mp hp with
      | inl h1 => rw [h1]; exact hm (k', v) (List.mem_cons_self _ _)
      | inr h2 => exact ih k (fun q hq => hm q (List.mem_cons_of_mem _ hq)) p h2

/-- Key sequence of an updated `state_data` map: unchanged if the key is
present, extended at the end if it is new. -/
theorem keys_updateState (m : List (String × StateData)) (k : String)
    (f : StateData → StateData) :
    (updateState m k f).map Prod.fst =
      if k ∈ m.map Prod.fst then m.map Prod.fst else m.map Prod.fst ++ [k] := by
  induction m with
  | nil => simp [updateState]
  | cons e rest ih =>
    obtain ⟨k', v⟩ := e
    by_cases hk : k' = k
    · simp [updateState, hk]
    · have hk2 : ¬(k = k') := fun h => hk h.symm
      by_cases hmem : k ∈ rest.map Prod.fst <;>
        simp [updateState, hk, hk2, ih, hmem]

/-- Updating `state_data` keeps its keys distinct. -/
theorem nodup_keys_updateState (m : List (String × StateData)) (k : String)
    (f : StateData → StateData) (h : (m.map Prod.fst).Nodup) :
    ((updateState m k f).map Prod.fst).Nodup := by
  rw [keys_updateState]
  by_cases hmem : k ∈ m.map Prod.fst
  · rw [if_pos hmem]; exact h
  · rw [if_neg hmem]
    refine List.nodup_append.mpr ⟨h, List.nodup_singleton k, ?_⟩
    intro a ha hb
    rw [List.mem_singleton.mp hb] at ha
    exact hmem ha

/-- The accumulated `state_data` of the aggregator has distinct keys. -/
theorem nodup_keys_stateBuckets (tweets : List RawRecord) (rows : List SummaryRow) :
    ((stateBuckets tweets rows).map Prod.fst).Nodup := by
  unfold stateBuckets
  exact foldl_preserve_mem (fun m => (m.map Prod.fst).Nodup) addRow rows _
    (fun m r _ h => nodup_keys_updateState m (rowState r) _ h)
    (foldl_preserve_mem (fun m => (m.map Prod.fst).Nodup) addTweet tweets []
      (fun m t _ h => nodup_keys_updateState m (tweetState t) _ h)
      (by simp))

/-- In a map with distinct keys, a key determines its value. -/
theorem value_eq_of_nodup_keys (m : List (String × StateData))
    (h : (m.map Prod.fst).Nodup) (k : String) (v₁ v₂ : StateData)
    (h₁ : (k, v₁) ∈ m) (h₂ : (k, v₂) ∈ m) : v₁ = v₂ := by
  induction m with
  | nil => cases h₁
  | cons e rest ih =>
    obtain ⟨k', v⟩ := e
    simp only [List.map_cons, List.nodup_cons] at h
    cases List.mem_cons.mp h₁ with
    | inl e₁ =>
      obtain ⟨hk₁, hv₁⟩ := Prod.mk.injEq .. ▸ e₁
      cases List.mem_cons.mp h₂ with
      | inl e₂ =>
        obtain ⟨hk₂, hv₂⟩ := Prod.mk.injEq .. ▸ e₂
        rw [hv₁, hv₂]
      | inr m₂ =>
        exfalso
        apply h.1
        rw [← hk₁]
        exact List.mem_map.mpr ⟨(k, v₂), m₂, rfl⟩
    | inr m₁ =>
      cases List.mem_cons.mp h₂ with
      | inl e₂ =>
        obtain ⟨hk₂, hv₂⟩ := Prod.mk.injEq .. ▸ e₂
        exfalso
        apply h.1
        rw [← hk₂]
        exact List.mem_map.mpr ⟨(k, v₁), m₁, rfl⟩
      | inr m₂ => exact ih h.2 m₁ m₂

/-- The emitted states are the bucket keys whose total is positive, in bucket
order. -/
theorem map_state_filterMap (m : List (String × StateData)) :
    (m.filterMap mkStateReport).map StateReport.state =
      (m.filter (fun p => 0 < p.2.total_messages)).map Prod.fst := by
  induction m with
  | nil => rfl
  | cons p rest ih =>
    by_cases hp : 0 < p.2.total_messages <;>
      simp [mkStateReport, List.filterMap_cons, List.filter_cons, hp, ih]

/-- Keys after pass 1, as a fold over the records' state keys. -/
theorem keys_foldl_addTweet :
    ∀ (l : List RawRecord) (m : List (String × StateData)),
      (l.foldl addTweet m).map Prod.fst =
        l.foldl (fun acc t => if tweetState t ∈ acc then acc else acc ++ [tweetState t])
          (m.map Prod.fst) := by
  intro l
  induction l with
  | nil => intro m; rfl
  | cons t l ih =>
    intro m
    simp only [List.foldl_cons]
    rw [ih, show addTweet m t = updateState m (tweetState t)
      (fun d => { d with transport_breakdown := d.transport_breakdown.bump (tweetTransport t) })
      from rfl, keys_updateState]

/-- Keys after pass 2, as a fold over the rows' state keys. -/
theorem keys_foldl_addRow :
    ∀ (l : List SummaryRow) (m : List (String × StateData)),
      (l.foldl addRow m).map Prod.fst =
        l.foldl (fun acc r => if rowState r ∈ acc then acc else acc ++ [rowState r])
          (m.map Prod.fst) := by
  intro l
  induction l with
  | nil => intro m; rfl
  | cons r l ih =>
    intro m
    simp only [List.foldl_cons]
    rw [ih, show addRow m r = updateState m (rowState r)
      (fun d =>
        { d with
          total_messages := d.total_messages + rowTotal r
          positive_count := d.positive_count + rowPositive r
          negative_count := d.negative_count + rowNegative r
          neutral_count := d.neutral_count + rowNeutral r })
      from rfl, keys_updateState]

/-- The bucket keys are the state keys of pass 1 then pass 2, in order of
first appearance. -/
theorem keys_stateBuckets (tweets : List RawRecord) (rows : List SummaryRow) :
    (stateBuckets tweets rows).map Prod.fst =
      firstOccur (tweets.map tweetState ++ rows.map rowState) := by
  unfold stateBuckets firstOccur
  rw [keys_foldl_addRow, keys_foldl_addTweet, List.foldl_append,
    List.foldl_map, List.foldl_map]
  rfl

/-- C4: `extract_state_from_region` is total and returns the trimmed substring
after the LAST comma when a comma is present, and the trimmed whole string
otherwise; in particular "Mumbai, Maharashtra" yields "Maharashtra", "Delhi"
yields "Delhi", "A, B, C" yields "C", and "" yields "". -/
theorem extract_state_last_comma :
    (∀ a b : List Char, ',' ∉ b →
        extract_state_from_region (String.mk (a ++ ',' :: b)) = String.mk (trimChars b)) ∧
    (∀ cs : List Char, ',' ∉ cs →
        extract_state_from_region (String.mk cs) = String.mk (trimChars cs)) ∧
    extract_state_from_region "Mumbai, Maharashtra" = "Maharashtra" ∧
    extract_state_from_region "Delhi" = "Delhi" ∧
    extract_state_from_region "A, B, C" = "C" ∧
    extract_state_from_region "" = "" :=
  ⟨fun a b hb => extract_state_append a b hb,
   fun cs h => extract_state_no_comma cs h,
   by decide, by decide, by decide, by decide⟩

/-- Witness for the region parser claim at concrete inputs. -/
theorem extract_state_last_comma_witness :
    (',' ∉ " Maharashtra".data) ∧
    extract_state_from_region (String.mk ("Mumbai".data ++ ',' :: " Maharashtra".data)) =
      String.mk (trimChars " Maharashtra".data) ∧
    (',' ∉ "Delhi".data) ∧
    extract_state_from_region (String.mk "Delhi".data) = String.mk (trimChars "Delhi".data) :=
  ⟨by decide,
   extract_state_last_comma.1 "Mumbai".data " Maharashtra".data (by decide),
   by decide,
   extract_state_last_comma.2.1 "Delhi".data (by decide)⟩

/-- C5: the classifier is total and deterministic, tests case-insensitive
substring keyword groups in the fixed order metro, train, auto, taxi with the
first match winning and "bus" as fallback; every string containing "metro"
(any case) classifies as "metro", and the empty string classifies as "bus". -/
theorem classifier_keyword_order :
    (∀ s : String, isSubstring "metro".data (pyLower s).data = true →
        determine_transport_type s = "metro") ∧
    determine_transport_type "" = "bus" ∧
    ∀ s : String, determine_transport_type s = classifyTransportSpec s := by
  refine ⟨?_, by decide, fun s => rfl⟩
  intro s h
  have hc : (["metro", "à¤®à¥‡à¤Ÿà¥à¤°à¥‹", "subway", "dmrc"].any
      (hasKeyword (pyLower s).data)) = true := by
    simp only [List.any_cons, Bool.or_eq_true]
    exact Or.inl (by simpa [hasKeyword] using h)
  simp only [determine_transport_type]
  rw [if_pos hc]

/-- Witness for the classifier claim at a concrete mixed-case input. -/
theorem classifier_keyword_order_witness :
    isSubstring "metro".data (pyLower "Delhi METRO is fast").data = true ∧
    determine_transport_type "Delhi METRO is fast" = "metro" :=
  ⟨by decide, classifier_keyword_order.1 "Delhi METRO is fast" (by decide)⟩

/-- C8: the scorer is total and case-insensitive: every casing of "positive"
maps to 0.5, of "negative" to -0.5, of "neutral" to 0, and every other label
to 0; in particular "Positive" maps to 0.5 and "unknown" to 0. -/
theorem scorer_case_insensitive_total :
    determine_sentiment_score "Positive" = 1/2 ∧
    determine_sentiment_score "unknown" = 0 ∧
    (∀ s : String, pyLower s = "positive" → determine_sentiment_score s = 1/2) ∧
    (∀ s : String, pyLower s = "negative" → determine_sentiment_score s = -(1/2)) ∧
    (∀ s : String, pyLower s = "neutral" → determine_sentiment_score s = 0) ∧
    (∀ s : String, pyLower s ≠ "positive" → pyLower s ≠ "negative" →
        pyLower s ≠ "neutral" → determine_sentiment_score s = 0) := by
  have hpos : ∀ s : String, pyLower s = "positive" → determine_sentiment_score s = 1/2 := by
    intro s h
    simp [determine_sentiment_score, h]
  have hneg : ∀ s : String, pyLower s = "negative" → determine_sentiment_score s = -(1/2) := by
    intro s h
    simp [determine_sentiment_score, h,
      show ("negative" : String) ≠ "positive" from by decide]
  have hneu : ∀ s : String, pyLower s = "neutral" → determine_sentiment_score s = 0 := by
    intro s h
    simp [determine_sentiment_score, h,
      show ("neutral" : String) ≠ "positive" from by decide,
      show ("neutral" : String) ≠ "negative" from by decide]
  have hdef : ∀ s : String, pyLower s ≠ "positive" → pyLower s ≠ "negative" →
      pyLower s ≠ "neutral" → determine_sentiment_score s = 0 := by
    intro s h1 h2 h3
    simp [determine_sentiment_score, h1, h2, h3]
  exact ⟨hpos "Positive" (by decide),
    hdef "unknown" (by decide) (by decide) (by decide),
    hpos, hneg, hneu, hdef⟩

/-- Witness for the scorer claim at concrete mixed-case and unknown labels. -/
theorem scorer_case_insensitive_total_witness :
    determine_sentiment_score "NEGATIVE" = -(1/2) ∧
    determine_sentiment_score "NeUtRaL" = 0 ∧
    determine_sentiment_score "mixed" = 0 :=
  ⟨scorer_case_insensitive_total.2.2.2.1 "NEGATIVE" (by decide),
   scorer_case_insensitive_total.2.2.2.2.1 "NeUtRaL" (by decide),
   scorer_case_insensitive_total.2.2.2.2.2 "mixed" (by decide) (by decide) (by decide)⟩

/-- C3: the enricher splits the region at the FIRST comma (trimmed city
before it, trimmed remainder as state), so "Mumbai, Maharashtra, India"
yields city "Mumbai" and state "Maharashtra, India"; without a comma, city
and state are both the trimmed region; and this coexists with the
aggregator's last-comma extraction, which maps the same region to "India". -/
theorem enricher_first_comma_split :
    (∀ (now : Timestamp) (r : RawRecord) (a b : List Char),
        r.region = some (String.mk (a ++ ',' :: b)) → ',' ∉ a →
        (enrichTweet now r).city = String.mk (trimChars a) ∧
        (enrichTweet now r).state = String.mk (trimChars b)) ∧
    (∀ (now : Timestamp) (r : RawRecord) (reg : String),
        r.region = some reg → ',' ∉ reg.data →
        (enrichTweet now r).city = String.mk (trimChars reg.data) ∧
        (enrichTweet now r).state = String.mk (trimChars reg.data)) ∧
    (∀ (now : Timestamp) (r : RawRecord),
        r.region = some "Mumbai, Maharashtra, India" →
        (enrichTweet now r).city = "Mumbai" ∧
        (enrichTweet now r).state = "Maharashtra, India") ∧
    extract_state_from_region "Mumbai, Maharashtra, India" = "India" := by
  have h1 : ∀ (now : Timestamp) (r : RawRecord) (a b : List Char),
      r.region = some (String.mk (a ++ ',' :: b)) → ',' ∉ a →
      (enrichTweet now r).city = String.mk (trimChars a) ∧
      (enrichTweet now r).state = String.mk (trimChars b) := by
    intro now r a b hreg ha
    have hmem : ',' ∈ a ++ ',' :: b := List.mem_append_right a (List.mem_cons_self ',' b)
    constructor
    · simp only [enrichTweet, hreg, Option.getD_some]
      rw [if_pos hmem, takeWhile_notComma_append a b ha]
    · simp only [enrichTweet, hreg, Option.getD_some]
      rw [if_pos hmem, dropWhile_notComma_append a b ha, List.drop_succ_cons,
        List.drop_zero]
  have h2 : ∀ (now : Timestamp) (r : RawRecord) (reg : String),
      r.region = some reg → ',' ∉ reg.data →
      (enrichTweet now r).city = String.mk (trimChars reg.data) ∧
      (enrichTweet now r).state = String.mk (trimChars reg.data) := by
    intro now r reg hreg h
    constructor <;>
      · simp only [enrichTweet, hreg, Option.getD_some]
        rw [if_neg h]
  have h3 : ∀ (now : Timestamp) (r : RawRecord),
      r.region = some "Mumbai, Maharashtra, India" →
      (enrichTweet now r).city = "Mumbai" ∧
      (enrichTweet now r).state = "Maharashtra, India" := by
    intro now r hreg
    have hreg' : r.region =
        some (String.mk ("Mumbai".data ++ ',' :: " Maharashtra, India".data)) := by
      rw [hreg,
        show ("Mumbai, Maharashtra, India" : String) =
          String.mk ("Mumbai".data ++ ',' :: " Maharashtra, India".data) from by decide]
    obtain ⟨hc, hs⟩ := h1 now r _ _ hreg' (by decide)
    exact ⟨by rw [hc]; decide, by rw [hs]; decide⟩
  exact ⟨h1, h2, h3, by decide⟩

/-- Witness for the first-comma split claim at the concrete three-part
region. -/
theorem enricher_first_comma_split_witness :
    (enrichTweet ⟨"2024-01-01T00:00:00"⟩
        { region := some "Mumbai, Maharashtra, India" }).city = "Mumbai" ∧
    (enrichTweet ⟨"2024-01-01T00:00:00"⟩
        { region := some "Mumbai, Maharashtra, India" }).state = "Maharashtra, India" :=
  enricher_first_comma_split.2.2.1 ⟨"2024-01-01T00:00:00"⟩
    { region := some "Mumbai, Maharashtra, India" } rfl

/-- C7: the enricher is total with defensive defaults: missing text becomes
"", missing region "India", missing sentiment "neutral", missing timestamp
the current time; the classifier and scorer are applied to the defaulted
values, and the confidence is always 0.85. -/
theorem enricher_total_defaults :
    (∀ (now : Timestamp) (r : RawRecord),
        (enrichTweet now r).sentiment.confidence = 17/20) ∧
    (∀ (now : Timestamp) (r : RawRecord),
        (enrichTweet now r).transportType = determine_transport_type (r.text.getD "")) ∧
    (∀ (now : Timestamp) (r : RawRecord),
        (enrichTweet now r).sentiment.polarity =
          determine_sentiment_score (r.sentiment.getD "neutral")) ∧
    (∀ (now : Timestamp) (r : RawRecord),
        (enrichTweet now r).sentiment.label = r.sentiment.getD "neutral") ∧
    (∀ (now : Timestamp) (r : RawRecord), r.text = none →
        (enrichTweet now r).text = "") ∧
    (∀ (now : Timestamp) (r : RawRecord), r.region = none →
        (enrichTweet now r).location = "India") ∧
    (∀ (now : Timestamp) (r : RawRecord), r.sentiment = none →
        (enrichTweet now r).sentiment.label = "neutral") ∧
    (∀ (now : Timestamp) (r : RawRecord), r.created_at = none →
        (enrichTweet now r).timestamp = now.iso) := by
  refine ⟨fun now r => rfl, fun now r => rfl, fun now r => rfl, fun now r => rfl,
    ?_, ?_, ?_, ?_⟩ <;>
    · intro now r h
      simp [enrichTweet, h]

/-- Witness for the enricher-defaults claim at the empty record. -/
theorem enricher_total_defaults_witness :
    (enrichTweet ⟨"2024-01-01T00:00:00"⟩ {}).text = "" ∧
    (enrichTweet ⟨"2024-01-01T00:00:00"⟩ {}).location = "India" ∧
    (enrichTweet ⟨"2024-01-01T00:00:00"⟩ {}).sentiment.label = "neutral" ∧
    (enrichTweet ⟨"2024-01-01T00:00:00"⟩ {}).timestamp = "2024-01-01T00:00:00" ∧
    (enrichTweet ⟨"2024-01-01T00:00:00"⟩ {}).sentiment.confidence = 17/20 :=
  ⟨enricher_total_defaults.2.2.2.2.1 ⟨"2024-01-01T00:00:00"⟩ {} rfl,
   enricher_total_defaults.2.2.2.2.2.1 ⟨"2024-01-01T00:00:00"⟩ {} rfl,
   enricher_total_defaults.2.2.2.2.2.2.1 ⟨"2024-01-01T00:00:00"⟩ {} rfl,
   enricher_total_defaults.2.2.2.2.2.2.2 ⟨"2024-01-01T00:00:00"⟩ {} rfl,
   enricher_total_defaults.1 ⟨"2024-01-01T00:00:00"⟩ {}⟩

/-- C1: every report of `/api/states` satisfies
`sentimentScore = (positive - negative) / total` over its state's accumulated
bucket (whose counts the report carries), is emitted only when the
accumulated total is positive, and a state whose accumulated total is zero
never appears in the output. -/
theorem states_report_score_invariant :
    ∀ (tweets : List RawRecord) (rows : List SummaryRow),
      (∀ r ∈ get_states_summary tweets rows,
          0 < r.totalMessages ∧
          r.sentimentScore =
            ((r.sentimentBreakdown.positive - r.sentimentBreakdown.negative : ℤ) : ℚ) /
              ((r.totalMessages : ℤ) : ℚ) ∧
          (r.state,
            ⟨r.totalMessages, r.sentimentBreakdown.positive, r.sentimentBreakdown.negative,
              r.sentimentBreakdown.neutral, r.transportBreakdown⟩) ∈
            stateBuckets tweets rows) ∧
      (∀ p ∈ stateBuckets tweets rows, p.2.total_messages = 0 →
          ∀ r ∈ get_states_summary tweets rows, r.state ≠ p.1) := by
  intro tweets rows
  constructor
  · intro r hr
    rcases List.mem_filterMap.mp hr with ⟨p, hp, hmk⟩
    simp only [mkStateReport] at hmk
    by_cases hpos : 0 < p.2.total_messages
    · rw [if_pos hpos] at hmk
      obtain rfl := Option.some.inj hmk
      exact ⟨hpos, rfl, hp⟩
    · rw [if_neg hpos] at hmk
      cases hmk
  · intro p hp hzero r hr heq
    rcases List.mem_filterMap.mp hr with ⟨q, hq, hmk⟩
    simp only [mkStateReport] at hmk
    by_cases hpos : 0 < q.2.total_messages
    · rw [if_pos hpos] at hmk
      obtain rfl := Option.some.inj hmk
      have hkey : q.1 = p.1 := heq
      have hq' : (p.1, q.2) ∈ stateBuckets tweets rows := by
        have hqe : q = (p.1, q.2) := by rw [← hkey]
        rw [← hqe]
        exact hq
      have hp' : (p.1, p.2) ∈ stateBuckets tweets rows := hp
      have hval := value_eq_of_nodup_keys _ (nodup_keys_stateBuckets tweets rows)
        p.1 q.2 p.2 hq' hp'
      rw [hval, hzero] at hpos
      exact lt_irrefl 0 hpos
    · rw [if_neg hpos] at hmk
      cases hmk

/-- Witness for the score-invariant claim: the Mumbai row yields a report
satisfying the invariant, and the zero-total row's state "Z" never appears. -/
theorem states_report_score_invariant_witness :
    (0 < mumbaiReport.totalMessages ∧
      mumbaiReport.sentimentScore =
        ((mumbaiReport.sentimentBreakdown.positive -
            mumbaiReport.sentimentBreakdown.negative : ℤ) : ℚ) /
          ((mumbaiReport.totalMessages : ℤ) : ℚ) ∧
      (mumbaiReport.state,
        ⟨mumbaiReport.totalMessages, mumbaiReport.sentimentBreakdown.positive,
          mumbaiReport.sentimentBreakdown.negative, mumbaiReport.sentimentBreakdown.neutral,
          mumbaiReport.transportBreakdown⟩) ∈
        stateBuckets [] [mumbaiRow, zeroTotalRow]) ∧
    mumbaiReport.state ≠ "Z" := by
  have hmem : mumbaiReport ∈ get_states_summary [] [mumbaiRow, zeroTotalRow] := by
    norm_num [get_states_summary, stateBuckets, addRow, rowState, updateState,
      mkStateReport, StateData.init, List.filterMap_cons, rowTotal, rowPositive,
      rowNegative, rowNeutral, mumbaiRow, mumbaiReport, zeroTotalRow,
      TransportBreakdown.zero,
      show extract_state_from_region "Mumbai, Maharashtra" = "Maharashtra" from by decide,
      show extract_state_from_region "Z" = "Z" from by decide,
      show ¬("Maharashtra" : String) = "Z" from by decide]
  have hZ : ("Z", StateData.init) ∈ stateBuckets [] [mumbaiRow, zeroTotalRow] := by
    norm_num [stateBuckets, addRow, rowState, updateState, StateData.init,
      rowTotal, rowPositive, rowNegative, rowNeutral, mumbaiRow, zeroTotalRow,
      TransportBreakdown.zero,
      show extract_state_from_region "Mumbai, Maharashtra" = "Maharashtra" from by decide,
      show extract_state_from_region "Z" = "Z" from by decide,
      show ¬("Maharashtra" : String) = "Z" from by decide]
  exact ⟨(states_report_score_invariant [] [mumbaiRow, zeroTotalRow]).1 mumbaiReport hmem,
    (states_report_score_invariant [] [mumbaiRow, zeroTotalRow]).2
      ("Z", StateData.init) hZ rfl mumbaiReport hmem⟩

/-- C2 counterexample: with a summary row claiming 2 positives among 1 total
message, the emitted sentiment score is 2, outside [-1, 1]; the claim fails
for arbitrary inputs. -/
theorem score_range_counterexample :
    (get_states_summary [] [overcountRow]).map StateReport.sentimentScore = [2] ∧
    ¬((-1 : ℚ) ≤ 2 ∧ (2 : ℚ) ≤ 1) := by
  constructor
  · norm_num [get_states_summary, stateBuckets, addRow, rowState, updateState,
      mkStateReport, StateData.init, List.filterMap_cons, rowTotal, rowPositive,
      rowNegative, rowNeutral, overcountRow,
      show extract_state_from_region "X" = "X" from by decide]
  · norm_num

/-- C2 amended: when every summary row is internally consistent (nonnegative
positive and negative counts summing to at most its total), every emitted
sentiment score lies in [-1, 1]. -/
theorem score_range_of_consistent_rows :
    ∀ (tweets : List RawRecord) (rows : List SummaryRow),
      (∀ row ∈ rows, 0 ≤ rowPositive row ∧ 0 ≤ rowNegative row ∧
          rowPositive row + rowNegative row ≤ rowTotal row) →
      ∀ r ∈ get_states_summary tweets rows,
        -1 ≤ r.sentimentScore ∧ r.sentimentScore ≤ 1 := by
  intro tweets rows hrows r hr
  have hbuckets : ∀ p ∈ stateBuckets tweets rows,
      0 ≤ p.2.positive_count ∧ 0 ≤ p.2.negative_count ∧
        p.2.positive_count + p.2.negative_count ≤ p.2.total_messages := by
    unfold stateBuckets
    refine foldl_preserve_mem
      (fun m => ∀ p ∈ m, 0 ≤ p.2.positive_count ∧ 0 ≤ p.2.negative_count ∧
        p.2.positive_count + p.2.negative_count ≤ p.2.total_messages)
      addRow rows _ ?_
      (foldl_preserve_mem
        (fun m => ∀ p ∈ m, 0 ≤ p.2.positive_count ∧ 0 ≤ p.2.negative_count ∧
          p.2.positive_count + p.2.negative_count ≤ p.2.total_messages)
        addTweet tweets [] ?_ (fun p hp => absurd hp (List.not_mem_nil p)))
    · intro m row hrowmem hm
      obtain ⟨hp0, hn0, hpn⟩ := hrows row hrowmem
      refine updateState_values
        (fun d => 0 ≤ d.positive_count ∧ 0 ≤ d.negative_count ∧
          d.positive_count + d.negative_count ≤ d.total_messages)
        _ ?_ ?_ m (rowState row) hm
      · intro v hv
        obtain ⟨v1, v2, v3⟩ := hv
        dsimp only
        exact ⟨by omega, by omega, by omega⟩
      · dsimp only [StateData.init]
        exact ⟨by omega, by omega, by omega⟩
    · intro m t _ hm
      exact updateState_values
        (fun d => 0 ≤ d.positive_count ∧ 0 ≤ d.negative_count ∧
          d.positive_count + d.negative_count ≤ d.total_messages)
        (fun d => { d with transport_breakdown := d.transport_breakdown.bump (tweetTransport t) })
        (fun v hv => hv)
        (by dsimp only [StateData.init]; exact ⟨le_refl 0, le_refl 0, by omega⟩)
        m (tweetState t) hm
  rcases List.mem_filterMap.mp hr with ⟨p, hp, hmk⟩
  simp only [mkStateReport] at hmk
  by_cases hpos : 0 < p.2.total_messages
  · rw [if_pos hpos] at hmk
    obtain rfl := Option.some.inj hmk
    obtain ⟨h1, h2, h3⟩ := hbuckets p hp
    have ht : (0 : ℚ) < ((p.2.total_messages : ℤ) : ℚ) := by exact_mod_cast hpos
    constructor
    · rw [le_div_iff₀ ht]
      push_cast
      have h1q : (0 : ℚ) ≤ (p.2.positive_count : ℚ) := by exact_mod_cast h1
      have h2q : (0 : ℚ) ≤ (p.2.negative_count : ℚ) := by exact_mod_cast h2
      have h3q : (p.2.positive_count : ℚ) + (p.2.negative_count : ℚ) ≤
          (p.2.total_messages : ℚ) := by exact_mod_cast h3
      linarith
    · rw [div_le_one ht]
      have h1q : (0 : ℚ) ≤ (p.2.positive_count : ℚ) := by exact_mod_cast h1
      have h2q : (0 : ℚ) ≤ (p.2.negative_count : ℚ) := by exact_mod_cast h2
      have h3q : (p.2.positive_count : ℚ) + (p.2.negative_count : ℚ) ≤
          (p.2.total_messages : ℚ) := by exact_mod_cast h3
      push_cast
      linarith
  · rw [if_neg hpos] at hmk
    cases hmk

/-- Witness for the amended score-range claim at the consistent Mumbai row. -/
theorem score_range_of_consistent_rows_witness :
    -1 ≤ mumbaiReport.sentimentScore ∧ mumbaiReport.sentimentScore ≤ 1 := by
  have hmem : mumbaiReport ∈ get_states_summary [] [mumbaiRow] := by
    norm_num [get_states_summary, stateBuckets, addRow, rowState, updateState,
      mkStateReport, StateData.init, List.filterMap_cons, rowTotal, rowPositive,
      rowNegative, rowNeutral, mumbaiRow, mumbaiReport, TransportBreakdown.zero,
      show extract_state_from_region "Mumbai, Maharashtra" = "Maharashtra" from by decide]
  refine score_range_of_consistent_rows [] [mumbaiRow] ?_ mumbaiReport hmem
  intro row hrow
  rw [List.mem_singleton.mp hrow]
  refine ⟨by norm_num [rowPositive, mumbaiRow], by norm_num [rowNegative, mumbaiRow],
    by norm_num [rowPositive, rowNegative, rowTotal, mumbaiRow]⟩

/-- C9: the aggregation is a pure function of its inputs: two runs on equal
record and summary lists produce equal outputs, in values and order. -/
theorem aggregation_deterministic :
    ∀ (t₁ t₂ : List RawRecord) (r₁ r₂ : List SummaryRow),
      t₁ = t₂ → r₁ = r₂ → get_states_summary t₁ r₁ = get_states_summary t₂ r₂ := by
  intro t₁ t₂ r₁ r₂ ht hr
  rw [ht, hr]

/-- Witness for determinism at a concrete input. -/
theorem aggregation_deterministic_witness :
    get_states_summary [] [mumbaiRow] = get_states_summary [] [mumbaiRow] :=
  aggregation_deterministic [] [] [mumbaiRow] [mumbaiRow] rfl rfl

/-- C6: the `/api/states` output lists exactly the positive-total buckets in
bucket order, the bucket keys are the states in order of first appearance
with pass 1 (records) before pass 2 (summary rows), and a concrete run shows
the output is sorted neither by state name nor by score. -/
theorem states_output_insertion_order :
    (∀ (tweets : List RawRecord) (rows : List SummaryRow),
        (get_states_summary tweets rows).map StateReport.state =
          ((stateBuckets tweets rows).filter
            (fun p => 0 < p.2.total_messages)).map Prod.fst) ∧
    (∀ (tweets : List RawRecord) (rows : List SummaryRow),
        (stateBuckets tweets rows).map Prod.fst =
          firstOccur (tweets.map tweetState ++ rows.map rowState)) ∧
    (get_states_summary [] unsortedRows).map StateReport.state = ["B", "A", "C"] ∧
    (get_states_summary [] unsortedRows).map StateReport.sentimentScore = [-1, 1, 0] := by
  refine ⟨fun tweets rows => map_state_filterMap _,
    fun tweets rows => keys_stateBuckets tweets rows, ?_, ?_⟩ <;>
    norm_num [get_states_summary, stateBuckets, addRow, rowState, updateState,
      mkStateReport, StateData.init, List.filterMap_cons, rowTotal, rowPositive,
      rowNegative, rowNeutral, unsortedRows,
      show extract_state_from_region "A" = "A" from by decide,
      show extract_state_from_region "B" = "B" from by decide,
      show extract_state_from_region "C" = "C" from by decide,
      show ¬("B" : String) = "A" from by decide,
      show ¬("B" : String) = "C" from by decide,
      show ¬("A" : String) = "C" from by decide]

/-- C10: the aggregation is total over records and rows with missing fields:
a missing region buckets under "Unknown" (not the enricher's "India"), a
missing text classifies as "bus" and bumps the state's bus counter, and every
missing count field contributes 0. -/
theorem aggregation_missing_field_defaults :
    (∀ t : RawRecord, t.region = none → tweetState t = "Unknown") ∧
    (∀ t : RawRecord, t.text = none → tweetTransport t = "bus") ∧
    (∀ (m : List (String × StateData)) (t : RawRecord), t.text = none →
        addTweet m t = updateState m (tweetState t)
          (fun d => { d with transport_breakdown := d.transport_breakdown.bump "bus" })) ∧
    (∀ tb : TransportBreakdown, (tb.bump "bus").bus = tb.bus + 1) ∧
    (∀ r : SummaryRow, r.region = none → rowState r = "Unknown") ∧
    (∀ r : SummaryRow, r.total_messages = none → rowTotal r = 0) ∧
    (∀ r : SummaryRow, r.positive_count = none → rowPositive r = 0) ∧
    (∀ r : SummaryRow, r.negative_count = none → rowNegative r = 0) ∧
    (∀ r : SummaryRow, r.neutral_count = none → rowNeutral r = 0) := by
  have htrans : ∀ t : RawRecord, t.text = none → tweetTransport t = "bus" := by
    intro t h
    simp only [tweetTransport, h, Option.getD_none]
    decide
  refine ⟨?_, htrans, ?_, ?_, ?_, ?_, ?_, ?_, ?_⟩
  · intro t h
    simp only [tweetState, h, Option.getD_none]
    decide
  · intro m t h
    rw [show addTweet m t = updateState m (tweetState t)
      (fun d => { d with transport_breakdown := d.transport_breakdown.bump (tweetTransport t) })
      from rfl, htrans t h]
  · intro tb
    simp [TransportBreakdown.bump]
  · intro r h
    simp only [rowState, h, Option.getD_none]
    decide
  · intro r h
    simp [rowTotal, h]
  · intro r h
    simp [rowPositive, h]
  · intro r h
    simp [rowNegative, h]
  · intro r h
    simp [rowNeutral, h]

/-- Witness for the aggregation-defaults claim at the empty record and row. -/
theorem aggregation_missing_field_defaults_witness :
    tweetState {} = "Unknown" ∧ tweetTransport {} = "bus" ∧ rowState {} = "Unknown" ∧
    rowTotal {} = 0 ∧ rowPositive {} = 0 ∧ rowNegative {} = 0 ∧ rowNeutral {} = 0 :=
  ⟨aggregation_missing_field_defaults.1 {} rfl,
   aggregation_missing_field_defaults.2.1 {} rfl,
   aggregation_missing_field_defaults.2.2.2.2.1 {} rfl,
   aggregation_missing_field_defaults.2.2.2.2.2.1 {} rfl,
   aggregation_missing_field_defaults.2.2.2.2.2.2.1 {} rfl,
   aggregation_missing_field_defaults.2.2.2.2.2.2.2.1 {} rfl,
   aggregation_missing_field_defaults.2.2.2.2.2.2.2.2 {} rfl⟩

end TransportSentiment
